import Mathlib

/-!
Verification of the call-center staffing engine (`src/erlang.py` and its
duplicate `src/erlang_class.py`) against its natural-language specification.

The Python code works on floats; the shallow embedding models the inputs
(traffic intensity, handling time, target answer time, target service level,
shrinkage) as exact rationals — every Python float is a rational — and the
values of `math.exp` as exact reals via `Real.exp`.  Fallible Python code
(`ZeroDivisionError` from a vanishing denominator, `ValueError` from
`factorial` on a negative argument) is modelled with `Option`: `none` is a
raised exception.  The unbounded `while` loop of `raw_agents_required` is
modelled with explicit fuel; running out of fuel is reported separately from
a raised exception so that nontermination and errors are not conflated.
-/

namespace CallCenter

/-- Embeds the generator-expression sum of `erlang_c`
(`sum(self.erlangs**_ / factorial(_) for _ in range(agents))`,
src/erlang.py line 119): the sum of `A^i / i!` for `i` in `range(n)`. -/
def erlangSum (A : ℚ) : ℕ → ℚ
  | 0 => 0
  | n + 1 => erlangSum A n + A ^ n / (Nat.factorial n : ℚ)

/-- Embeds `_num` of `erlang_c` (src/erlang.py line 118): `A^n / n!`. -/
def erlangCnum (A : ℚ) (n : ℕ) : ℚ :=
  A ^ n / (Nat.factorial n : ℚ)

/-- Embeds `_den` of `erlang_c` (src/erlang.py lines 119-121):
the generator sum times `(1 - A / agents)`. -/
def erlangCden (A : ℚ) (n : ℕ) : ℚ :=
  erlangSum A n * (1 - A / (n : ℚ))

/-- The value `_num / (_den + _num)` returned by `erlang_c`
(src/erlang.py line 122), as a total function on ℚ. -/
def erlangCval (A : ℚ) (n : ℕ) : ℚ :=
  erlangCnum A n / (erlangCden A n + erlangCnum A n)

/-- Embeds `CallCenterPredictions.erlang_c` (src/erlang.py lines 90-122).
`agents` is a Python `int`, hence ℤ.  The method performs no input
validation; it raises only where Python itself raises:
`agents = 0` divides by zero in `self.erlangs / agents`, `agents < 0` makes
`factorial` raise `ValueError`, and `_den + _num = 0` makes the final
division raise `ZeroDivisionError`.  A raised exception is `none`. -/
def erlang_c (A : ℚ) (agents : ℤ) : Option ℚ :=
  if agents ≤ 0 then none
  else if erlangCden A agents.toNat + erlangCnum A agents.toNat = 0 then none
  else some (erlangCval A agents.toNat)

/-- The exact-real value of `service_level` (src/erlang.py lines 152-154)
once the Erlang-C probability `p` is known:
`1 - p * exp((erlangs - agents) * (tat / aht))`. -/
noncomputable def slVal (A tat aht : ℚ) (p : ℚ) (agents : ℤ) : ℝ :=
  1 - (p : ℝ) * Real.exp (((A : ℝ) - (agents : ℝ)) * ((tat : ℝ) / (aht : ℝ)))

/-- Embeds `CallCenterPredictions.service_level` (src/erlang.py lines
124-154): it calls `self.erlang_c(agents)` and any exception from there
propagates. -/
noncomputable def service_level (A tat aht : ℚ) (agents : ℤ) : Option ℝ :=
  (erlang_c A agents).map fun p => slVal A tat aht p agents

/-- Outcome of running the `while` loop of `raw_agents_required` for a given
number of steps: an exception escaped from `service_level`, the fuel ran out
with the loop still going, or the loop returned an agent count. -/
inductive SearchOut where
  | error : SearchOut
  | fuelOut : SearchOut
  | result : ℤ → SearchOut
deriving DecidableEq

/-- Embeds the `while` loop of `raw_agents_required` (src/erlang.py lines
181-182): while `service_level(agents) < tsl`, increment `agents`.  `fuel`
bounds the number of iterations modelled. -/
noncomputable def rawAgentsGo (A tat aht tsl : ℚ) : ℕ → ℤ → SearchOut
  | 0, _ => .fuelOut
  | fuel + 1, agents =>
    match service_level A tat aht agents with
    | none => .error
    | some s => if s < (tsl : ℝ) then rawAgentsGo A tat aht tsl fuel (agents + 1)
                else .result agents

/-- Embeds `CallCenterPredictions.raw_agents_required` (src/erlang.py lines
156-183): the loop starts at the initial guess `agents = ceil(self.erlangs)`
(line 180). -/
noncomputable def raw_agents_required (A tat aht tsl : ℚ) (fuel : ℕ) : SearchOut :=
  rawAgentsGo A tat aht tsl fuel ⌈A⌉

/-- Embeds `CallCenterPredictions.average_speed_of_answer` (src/erlang.py
lines 185-195): `(p_wait * aht) / (raw_agents - erlangs)`, with no
validation; `raw_agents = erlangs` raises `ZeroDivisionError` (`none`). -/
def average_speed_of_answer (p_wait aht A : ℚ) (raw_agents : ℤ) : Option ℚ :=
  if (raw_agents : ℚ) - A = 0 then none
  else some ((p_wait * aht) / ((raw_agents : ℚ) - A))

/-- Embeds `CallCenterPredictions.agents_required` (src/erlang.py lines
221-236): `ceil(raw_agents / (1 - shrinkage))`, with no validation;
`shrinkage = 1` raises `ZeroDivisionError` (`none`). -/
def agents_required (raw_agents : ℤ) (shrinkage : ℚ) : Option ℤ :=
  if 1 - shrinkage = 0 then none
  else some ⌈(raw_agents : ℚ) / (1 - shrinkage)⌉

/-- Embeds `CallCenterPredictions.traffic_intensity` (src/erlang.py lines
64-88): `calls * (aht / period)` with the period in seconds. -/
def traffic_intensity (calls : ℕ) (aht period : ℚ) : ℚ :=
  (calls : ℚ) * (aht / period)

/-! ## Elementary facts about the generator sum and the Erlang-C terms -/

lemma erlangSum_succ (A : ℚ) (n : ℕ) :
    erlangSum A (n + 1) = erlangSum A n + A ^ n / (Nat.factorial n : ℚ) := rfl

lemma erlangSum_nonneg {A : ℚ} (hA : 0 ≤ A) (n : ℕ) : 0 ≤ erlangSum A n := by
  induction n with
  | zero => simp [erlangSum]
  | succ n ih =>
    have h1 : (0:ℚ) ≤ A ^ n / (Nat.factorial n : ℚ) := by positivity
    simpa [erlangSum] using add_nonneg ih h1

lemma one_le_erlangSum {A : ℚ} (hA : 0 ≤ A) {n : ℕ} (hn : 1 ≤ n) :
    1 ≤ erlangSum A n := by
  induction n with
  | zero => omega
  | succ n ih =>
    rcases Nat.eq_zero_or_pos n with h0 | h1
    · subst h0; simp [erlangSum, Nat.factorial]
    · have h2 : (0:ℚ) ≤ A ^ n / (Nat.factorial n : ℚ) := by positivity
      have := ih h1
      simp only [erlangSum]
      linarith

lemma erlangCnum_pos {A : ℚ} (hA : 0 < A) (n : ℕ) : 0 < erlangCnum A n := by
  have hf : (0:ℚ) < (Nat.factorial n : ℚ) := by exact_mod_cast Nat.factorial_pos n
  exact div_pos (pow_pos hA n) hf

lemma erlangCnum_nonneg {A : ℚ} (hA : 0 ≤ A) (n : ℕ) : 0 ≤ erlangCnum A n := by
  unfold erlangCnum
  positivity

lemma erlangCden_pos {A : ℚ} {n : ℕ} (hA : 0 ≤ A) (hn : A < (n : ℚ)) :
    0 < erlangCden A n := by
  have hn0 : (0:ℚ) < (n:ℚ) := lt_of_le_of_lt hA hn
  have hn1 : 1 ≤ n := by
    by_contra h
    push_neg at h
    interval_cases n
    simp at hn0
  have hS : 1 ≤ erlangSum A n := one_le_erlangSum hA hn1
  have hfac : (0:ℚ) < 1 - A / (n:ℚ) := by
    have : A / (n:ℚ) < 1 := (div_lt_one hn0).mpr hn
    linarith
  unfold erlangCden
  exact mul_pos (lt_of_lt_of_le one_pos hS) hfac

lemma erlangCden_nonneg {A : ℚ} {n : ℕ} (hA : 0 ≤ A) (hn : A ≤ (n : ℚ))
    (hn0 : 0 < n) : 0 ≤ erlangCden A n := by
  have hnq : (0:ℚ) < (n:ℚ) := by exact_mod_cast hn0
  have hS : 0 ≤ erlangSum A n := erlangSum_nonneg hA n
  have hfac : (0:ℚ) ≤ 1 - A / (n:ℚ) := by
    have : A / (n:ℚ) ≤ 1 := (div_le_one hnq).mpr hn
    linarith
  exact mul_nonneg hS hfac

/-! ## Range and special values of the Erlang-C probability -/

lemma erlangCval_zero {n : ℕ} (hn : 1 ≤ n) : erlangCval 0 n = 0 := by
  have h : erlangCnum 0 n = 0 := by
    unfold erlangCnum
    rw [zero_pow (by omega : n ≠ 0), zero_div]
  unfold erlangCval
  rw [h, zero_div]

lemma erlangCval_pos {A : ℚ} {n : ℕ} (hA : 0 < A) (hn : A < (n : ℚ)) :
    0 < erlangCval A n := by
  have h1 := erlangCnum_pos hA n
  have h2 := erlangCden_pos hA.le hn
  exact div_pos h1 (by linarith)

lemma erlangCval_lt_one {A : ℚ} {n : ℕ} (hA : 0 < A) (hn : A < (n : ℚ)) :
    erlangCval A n < 1 := by
  have h1 := erlangCnum_pos hA n
  have h2 := erlangCden_pos hA.le hn
  unfold erlangCval
  rw [div_lt_one (by linarith)]
  linarith

lemma erlangCval_nonneg {A : ℚ} {n : ℕ} (hA : 0 ≤ A) (hn : A < (n : ℚ)) :
    0 ≤ erlangCval A n := by
  rcases eq_or_lt_of_le hA with h0 | hpos
  · have hn1 : 1 ≤ n := by
      by_contra h
      push_neg at h
      interval_cases n
      rw [← h0] at hn
      simp at hn
    rw [← h0, erlangCval_zero hn1]
  · exact (erlangCval_pos hpos hn).le

lemma erlangCval_le_one {A : ℚ} {n : ℕ} (hA : 0 ≤ A) (hn : A < (n : ℚ)) :
    erlangCval A n ≤ 1 := by
  rcases eq_or_lt_of_le hA with h0 | hpos
  · have hn1 : 1 ≤ n := by
      by_contra h
      push_neg at h
      interval_cases n
      rw [← h0] at hn
      simp at hn
    rw [← h0, erlangCval_zero hn1]
    norm_num
  · exact (erlangCval_lt_one hpos hn).le

lemma erlangCval_diag {n : ℕ} (hn : 0 < n) : erlangCval (n : ℚ) n = 1 := by
  have hnq : ((n:ℚ)) ≠ 0 := by
    have : (0:ℚ) < (n:ℚ) := by exact_mod_cast hn
    exact this.ne'
  have hden : erlangCden (n : ℚ) n = 0 := by
    unfold erlangCden
    rw [div_self hnq]
    ring
  have hnum : erlangCnum (n : ℚ) n ≠ 0 := by
    have hpos : (0:ℚ) < (n:ℚ) := by exact_mod_cast hn
    exact (erlangCnum_pos hpos n).ne'
  unfold erlangCval
  rw [hden, zero_add, div_self hnum]

/-! ## The Erlang-C probability is non-increasing in the agent count -/

lemma erlangCval_succ_le {A : ℚ} {n : ℕ} (hA : 0 < A) (hn : A < (n : ℚ)) :
    erlangCval A (n + 1) ≤ erlangCval A n := by
  have hn0 : (0:ℚ) < (n:ℚ) := lt_trans hA hn
  have hn1 : A < ((n + 1 : ℕ) : ℚ) := by push_cast; linarith
  have hF : (0:ℚ) < (Nat.factorial n : ℚ) := by exact_mod_cast Nat.factorial_pos n
  have hFne : (Nat.factorial n : ℚ) ≠ 0 := hF.ne'
  have hnne : (n:ℚ) ≠ 0 := hn0.ne'
  have hn1ne : ((n:ℚ) + 1) ≠ 0 := by positivity
  have hP : (0:ℚ) < A ^ n := pow_pos hA n
  set S := erlangSum A n with hSdef
  set S2 := erlangSum A (n + 1) with hS2def
  have hS0 : 0 ≤ S := erlangSum_nonneg hA.le n
  have hSS2 : S ≤ S2 := by
    rw [hS2def, erlangSum_succ, ← hSdef]
    have : (0:ℚ) ≤ A ^ n / (Nat.factorial n : ℚ) := by positivity
    linarith
  have key : A * ((n:ℚ) - A) * S ≤ (n:ℚ) * (((n:ℚ) + 1) - A) * S2 := by
    nlinarith [mul_nonneg (mul_nonneg hn0.le (by linarith : (0:ℚ) ≤ ((n:ℚ) + 1) - A))
        (by linarith : (0:ℚ) ≤ S2 - S),
      mul_nonneg (by nlinarith [sq_nonneg ((n:ℚ) - A)] :
        (0:ℚ) ≤ ((n:ℚ) - A) ^ 2 + (n:ℚ)) hS0]
  set c : ℚ := A ^ n / ((Nat.factorial n : ℚ) * (n:ℚ) * ((n:ℚ) + 1)) with hcdef
  have hc : 0 ≤ c := by positivity
  have e1 : erlangCnum A (n + 1) * erlangCden A n = (A * ((n:ℚ) - A) * S) * c := by
    rw [erlangCnum, erlangCden, ← hSdef, Nat.factorial_succ, hcdef]
    push_cast
    field_simp
    ring
  have e2 : erlangCnum A n * erlangCden A (n + 1) =
      ((n:ℚ) * (((n:ℚ) + 1) - A) * S2) * c := by
    rw [erlangCnum, erlangCden, ← hS2def, hcdef]
    push_cast
    field_simp
    ring
  have hcross : erlangCnum A (n + 1) * erlangCden A n ≤
      erlangCnum A n * erlangCden A (n + 1) := by
    rw [e1, e2]
    exact mul_le_mul_of_nonneg_right key hc
  have hpos1 : 0 < erlangCden A n + erlangCnum A n :=
    add_pos (erlangCden_pos hA.le hn) (erlangCnum_pos hA n)
  have hpos2 : 0 < erlangCden A (n + 1) + erlangCnum A (n + 1) :=
    add_pos (erlangCden_pos hA.le hn1) (erlangCnum_pos hA (n + 1))
  rw [erlangCval, erlangCval, div_le_div_iff₀ hpos2 hpos1]
  nlinarith [hcross]

lemma erlangCval_anti_of_pos {A : ℚ} (hA : 0 < A) {a b : ℕ} (ha : A < (a:ℚ))
    (hab : a ≤ b) : erlangCval A b ≤ erlangCval A a := by
  induction b with
  | zero =>
    have h : a = 0 := by omega
    subst h
    exact le_refl _
  | succ b ih =>
    rcases Nat.lt_or_ge a (b + 1) with h | h
    · have hab2 : a ≤ b := by omega
      have hb : A < (b:ℚ) := lt_of_lt_of_le ha (by exact_mod_cast hab2)
      exact le_trans (erlangCval_succ_le hA hb) (ih hab2)
    · have h : a = b + 1 := by omega
      subst h
      exact le_refl _

lemma erlangCval_anti {A : ℚ} (hA : 0 ≤ A) {a b : ℕ} (ha : A < (a:ℚ))
    (hab : a ≤ b) : erlangCval A b ≤ erlangCval A a := by
  rcases eq_or_lt_of_le hA with h0 | hpos
  · have ha1 : 1 ≤ a := by
      by_contra h
      push_neg at h
      interval_cases a
      rw [← h0] at ha
      simp at ha
    have hb1 : 1 ≤ b := le_trans ha1 hab
    rw [← h0, erlangCval_zero ha1, erlangCval_zero hb1]
  · exact erlangCval_anti_of_pos hpos ha hab

/-! ## Evaluation lemmas for erlang_c and service_level -/

lemma toNat_cast_q {a : ℤ} (ha : 0 ≤ a) : ((a.toNat : ℕ) : ℚ) = (a : ℚ) := by
  rw [← Int.cast_natCast]
  exact_mod_cast congrArg (Int.cast : ℤ → ℚ) (Int.toNat_of_nonneg ha)

lemma erlang_c_eq_some {A : ℚ} {agents : ℤ} (hA : 0 < A) (h0 : 0 < agents)
    (hle : A ≤ (agents : ℚ)) :
    erlang_c A agents = some (erlangCval A agents.toNat) := by
  have hcast : ((agents.toNat : ℕ) : ℚ) = (agents : ℚ) := toNat_cast_q h0.le
  have hn0 : 0 < agents.toNat := by omega
  have hden : 0 ≤ erlangCden A agents.toNat :=
    erlangCden_nonneg hA.le (by rw [hcast]; exact hle) hn0
  have hnum : 0 < erlangCnum A agents.toNat := erlangCnum_pos hA _
  rw [erlang_c, if_neg (by omega), if_neg (by linarith)]

lemma erlang_c_eq_some_of_lt {A : ℚ} {agents : ℤ} (hA : 0 ≤ A)
    (hlt : A < (agents:ℚ)) :
    erlang_c A agents = some (erlangCval A agents.toNat) := by
  have h0 : 0 < agents := by exact_mod_cast lt_of_le_of_lt hA hlt
  have hcast := toNat_cast_q h0.le
  have hden : 0 < erlangCden A agents.toNat :=
    erlangCden_pos hA (by rw [hcast]; exact hlt)
  have hnum : 0 ≤ erlangCnum A agents.toNat := erlangCnum_nonneg hA _
  rw [erlang_c, if_neg (by omega), if_neg (by linarith)]

lemma erlang_c_none {A : ℚ} {agents : ℤ} (h0 : agents ≤ 0) :
    erlang_c A agents = none := by
  rw [erlang_c, if_pos h0]

lemma erlang_c_two_one : erlang_c 2 1 = some 2 := by
  norm_num [erlang_c, erlangCval, erlangCden, erlangCnum, erlangSum, Nat.factorial]

lemma service_level_eq_some_of_lt {A : ℚ} (tat aht : ℚ) {m : ℤ} (hA : 0 ≤ A)
    (hm : A < (m:ℚ)) :
    service_level A tat aht m = some (slVal A tat aht (erlangCval A m.toNat) m) := by
  rw [service_level, erlang_c_eq_some_of_lt hA hm, Option.map_some']

lemma service_level_eq_some {A : ℚ} (tat aht : ℚ) {m : ℤ} (hA : 0 < A)
    (hm : ⌈A⌉ ≤ m) :
    service_level A tat aht m = some (slVal A tat aht (erlangCval A m.toNat) m) := by
  have h0 : 0 < m := lt_of_lt_of_le (Int.ceil_pos.mpr hA) hm
  have hle : A ≤ (m:ℚ) := le_trans (Int.le_ceil A) (by exact_mod_cast hm)
  rw [service_level, erlang_c_eq_some hA h0 hle, Option.map_some']

/-! ## The service level is monotone in the agent count -/

lemma slVal_mono (A tat aht : ℚ) {a1 a2 : ℤ} (hA : 0 ≤ A) (htat : 0 ≤ tat)
    (haht : 0 < aht) (h1 : A < (a1:ℚ)) (h12 : a1 ≤ a2) :
    slVal A tat aht (erlangCval A a1.toNat) a1 ≤
      slVal A tat aht (erlangCval A a2.toNat) a2 := by
  have ha1 : 0 < a1 := by exact_mod_cast lt_of_le_of_lt hA h1
  have ha2 : 0 < a2 := lt_of_lt_of_le ha1 h12
  have hc1 : ((a1.toNat : ℕ) : ℚ) = (a1 : ℚ) := toNat_cast_q ha1.le
  have hc2 : ((a2.toNat : ℕ) : ℚ) = (a2 : ℚ) := toNat_cast_q ha2.le
  have ht1 : A < ((a1.toNat : ℕ) : ℚ) := by rw [hc1]; exact h1
  have ht2 : A < ((a2.toNat : ℕ) : ℚ) := by
    rw [hc2]
    exact lt_of_lt_of_le h1 (by exact_mod_cast h12)
  have hp : erlangCval A a2.toNat ≤ erlangCval A a1.toNat :=
    erlangCval_anti hA ht1 (by omega)
  have hp2 : 0 ≤ erlangCval A a2.toNat := erlangCval_nonneg hA ht2
  have hp1 : 0 ≤ erlangCval A a1.toNat := erlangCval_nonneg hA ht1
  have hr : (0:ℝ) ≤ (tat : ℝ) / (aht : ℝ) := by positivity
  have hE : Real.exp (((A:ℝ) - (a2:ℝ)) * ((tat:ℝ) / (aht:ℝ))) ≤
      Real.exp (((A:ℝ) - (a1:ℝ)) * ((tat:ℝ) / (aht:ℝ))) := by
    apply Real.exp_le_exp.mpr
    apply mul_le_mul_of_nonneg_right _ hr
    have : (a1:ℝ) ≤ (a2:ℝ) := by exact_mod_cast h12
    linarith
  unfold slVal
  have hmul : (erlangCval A a2.toNat : ℝ) *
      Real.exp (((A:ℝ) - (a2:ℝ)) * ((tat:ℝ) / (aht:ℝ))) ≤
      (erlangCval A a1.toNat : ℝ) *
      Real.exp (((A:ℝ) - (a1:ℝ)) * ((tat:ℝ) / (aht:ℝ))) :=
    mul_le_mul (by exact_mod_cast hp) hE (Real.exp_pos _).le (by exact_mod_cast hp1)
  linarith

/-! ## Behaviour of the staffing-search loop -/

lemma rawAgentsGo_sound (A tat aht tsl : ℚ) :
    ∀ (fuel : ℕ) (a n : ℤ), rawAgentsGo A tat aht tsl fuel a = .result n →
      a ≤ n ∧ (∃ s, service_level A tat aht n = some s ∧ (tsl:ℝ) ≤ s) ∧
        ∀ m : ℤ, a ≤ m → m < n →
          ∃ s, service_level A tat aht m = some s ∧ s < (tsl:ℝ) := by
  intro fuel
  induction fuel with
  | zero =>
    intro a n h
    simp [rawAgentsGo] at h
  | succ fuel ih =>
    intro a n h
    cases hsl : service_level A tat aht a with
    | none =>
      rw [rawAgentsGo, hsl] at h
      simp at h
    | some s =>
      rw [rawAgentsGo, hsl] at h
      simp only at h
      by_cases hlt : s < (tsl:ℝ)
      · rw [if_pos hlt] at h
        obtain ⟨h1, h2, h3⟩ := ih (a + 1) n h
        refine ⟨by omega, h2, ?_⟩
        intro m hm1 hm2
        rcases eq_or_lt_of_le hm1 with rfl | hgt
        · exact ⟨s, hsl, hlt⟩
        · exact h3 m (by omega) hm2
      · rw [if_neg hlt] at h
        cases h
        exact ⟨le_refl _, ⟨s, hsl, not_lt.mp hlt⟩,
          fun m hm1 hm2 => absurd (lt_of_le_of_lt hm1 hm2) (lt_irrefl _)⟩

lemma rawAgentsGo_stops (A tat aht tsl : ℚ) :
    ∀ (d : ℕ) (a : ℤ),
      (∀ m : ℤ, a ≤ m → m ≤ a + d → ∃ s, service_level A tat aht m = some s) →
      (∃ s, service_level A tat aht (a + d) = some s ∧ (tsl:ℝ) ≤ s) →
      ∃ n : ℤ, rawAgentsGo A tat aht tsl (d + 1) a = .result n := by
  intro d
  induction d with
  | zero =>
    intro a hdef hstop
    obtain ⟨s, hs, hts⟩ := hstop
    simp only [Nat.cast_zero, add_zero] at hs hts
    refine ⟨a, ?_⟩
    rw [rawAgentsGo, hs]
    simp only
    rw [if_neg (not_lt.mpr hts)]
  | succ d ih =>
    intro a hdef hstop
    obtain ⟨s, hs⟩ := hdef a (le_refl _) (by push_cast; omega)
    by_cases hlt : s < (tsl:ℝ)
    · have hshift : (a + 1) + (d:ℤ) = a + ((d + 1 : ℕ) : ℤ) := by push_cast; ring
      obtain ⟨n, hn⟩ := ih (a + 1)
        (fun m hm1 hm2 => hdef m (by omega)
          (by rw [← hshift] at *; push_cast at *; omega))
        (by rw [hshift]; exact hstop)
      refine ⟨n, ?_⟩
      rw [rawAgentsGo, hs]
      simp only
      rw [if_pos hlt]
      exact hn
    · refine ⟨a, ?_⟩
      rw [rawAgentsGo, hs]
      simp only
      rw [if_neg hlt]

lemma rawAgentsGo_one_step {A tat aht tsl : ℚ} {a : ℤ} {s : ℝ}
    (hs : service_level A tat aht a = some s) (hts : ¬ s < (tsl:ℝ)) (fuel : ℕ) :
    rawAgentsGo A tat aht tsl (fuel + 1) a = .result a := by
  rw [rawAgentsGo, hs]
  simp only
  rw [if_neg hts]

lemma slVal_diag (n : ℕ) (hn : 0 < n) (tat aht : ℚ) :
    slVal (n:ℚ) tat aht (erlangCval (n:ℚ) ((n:ℤ)).toNat) (n:ℤ) = 0 := by
  have ht : ((n:ℤ)).toNat = n := by omega
  rw [ht, erlangCval_diag hn, slVal]
  push_cast
  rw [sub_self, zero_mul, Real.exp_zero]
  norm_num

lemma loop_diag (n : ℕ) (hn : 0 < n) (tat aht : ℚ) (fuel : ℕ) :
    raw_agents_required (n:ℚ) tat aht 0 (fuel + 1) = .result (n:ℤ) := by
  have hceil : ⌈((n:ℕ):ℚ)⌉ = (n:ℤ) := Int.ceil_natCast n
  have hA : (0:ℚ) < (n:ℚ) := by exact_mod_cast hn
  have hsl : service_level (n:ℚ) tat aht (n:ℤ) =
      some (slVal (n:ℚ) tat aht (erlangCval (n:ℚ) ((n:ℤ)).toNat) (n:ℤ)) :=
    service_level_eq_some tat aht hA (by rw [hceil])
  rw [raw_agents_required, hceil]
  rw [slVal_diag n hn tat aht] at hsl
  exact rawAgentsGo_one_step hsl (by norm_num) fuel

/-! ## The claims -/

/-- C1 (amended): the staffing search starts from the initial guess
`ceil(traffic_intensity)` — not `ceil(traffic_intensity) + 1` — and,
incrementing the agent count by one each step, for `A > 0` it terminates
(for sufficient fuel) whenever some agent count at or above `ceil(A)` meets
the target service level, returning the first, hence minimum, such count at
or above `ceil(A)`. -/
theorem C1_search_returns_least_from_ceil (A tat aht tsl : ℚ) (hA : 0 < A)
    (hex : ∃ k : ℤ, ⌈A⌉ ≤ k ∧ (tsl:ℝ) ≤ slVal A tat aht (erlangCval A k.toNat) k) :
    ∃ n : ℤ, (∃ fuel : ℕ, raw_agents_required A tat aht tsl fuel = .result n) ∧
      ⌈A⌉ ≤ n ∧ (tsl:ℝ) ≤ slVal A tat aht (erlangCval A n.toNat) n ∧
      ∀ m : ℤ, ⌈A⌉ ≤ m → m < n →
        slVal A tat aht (erlangCval A m.toNat) m < (tsl:ℝ) := by
  obtain ⟨k, hk1, hk2⟩ := hex
  set c0 : ℤ := ⌈A⌉ with hc0
  set d : ℕ := (k - c0).toNat with hd
  have hkd : c0 + (d:ℤ) = k := by omega
  obtain ⟨n, hn⟩ := rawAgentsGo_stops A tat aht tsl d c0
    (fun m hm1 _ => ⟨_, service_level_eq_some tat aht hA hm1⟩)
    (by rw [hkd]; exact ⟨_, service_level_eq_some tat aht hA hk1, hk2⟩)
  obtain ⟨h1, ⟨s, hs, hts⟩, h3⟩ := rawAgentsGo_sound A tat aht tsl (d + 1) c0 n hn
  have hsv : s = slVal A tat aht (erlangCval A n.toNat) n := by
    rw [service_level_eq_some tat aht hA h1] at hs
    exact ((Option.some.injEq _ _).mp hs).symm
  refine ⟨n, ⟨d + 1, hn⟩, h1, by rw [← hsv]; exact hts, ?_⟩
  intro m hm1 hm2
  obtain ⟨s2, hs2, hlt2⟩ := h3 m hm1 hm2
  rw [service_level_eq_some tat aht hA hm1] at hs2
  have he : s2 = slVal A tat aht (erlangCval A m.toNat) m :=
    ((Option.some.injEq _ _).mp hs2).symm
  rw [← he]
  exact hlt2

/-- Witness for C1: at traffic intensity 1, target answer time 0, handling
time 1 and target service level 0, the search terminates and returns the
least satisfying agent count at or above the initial guess. -/
theorem C1_search_returns_least_from_ceil_witness :
    ∃ n : ℤ, (∃ fuel : ℕ, raw_agents_required 1 0 1 0 fuel = .result n) ∧
      ⌈(1:ℚ)⌉ ≤ n ∧ ((0:ℚ):ℝ) ≤ slVal 1 0 1 (erlangCval 1 n.toNat) n ∧
      ∀ m : ℤ, ⌈(1:ℚ)⌉ ≤ m → m < n →
        slVal 1 0 1 (erlangCval 1 m.toNat) m < ((0:ℚ):ℝ) := by
  apply C1_search_returns_least_from_ceil 1 0 1 0 (by norm_num)
  refine ⟨1, by simp, ?_⟩
  have h := slVal_diag 1 (by norm_num) 0 1
  norm_num at h ⊢
  rw [h]

/-- Counterexample to C1 as stated: at traffic intensity A = 1 with target
service level 0 (target answer time 0, handling time 1), the search returns
1 agent after one step; 1 is not strictly greater than A = 1 and is below
the claimed initial guess `ceil(A) + 1 = 2`, so the result is not the first
count at or above `ceil(A) + 1`. -/
theorem C1_search_counterexample :
    raw_agents_required 1 0 1 0 1 = SearchOut.result 1 ∧
      ¬ ((1:ℚ) < ((1:ℤ):ℚ)) ∧ (1:ℤ) < ⌈(1:ℚ)⌉ + 1 := by
  refine ⟨?_, by norm_num, by norm_num⟩
  have h := loop_diag 1 (by norm_num) 0 1 0
  norm_num at h ⊢
  exact h

/-- C2: for every traffic intensity `A ≥ 0` and integer `agents > A`
(hence `agents > 0`), `erlang_c A agents` returns (without error) exactly
`num / (den + num)` with `num = A^agents / agents!` and
`den = (1 - A/agents) * Σ_{i<agents} A^i / i!`; and the concrete value
`erlang_c (32.5) 35` is `0.5701` to within `0.0001`. -/
theorem C2_erlang_c_formula_and_value :
    (∀ (A : ℚ) (agents : ℤ), 0 ≤ A → A < (agents:ℚ) →
      erlang_c A agents = some (erlangCnum A agents.toNat /
        (erlangCden A agents.toNat + erlangCnum A agents.toNat))) ∧
    erlang_c (65/2) 35 = some (erlangCval (65/2) 35) ∧
    |erlangCval (65/2) 35 - 5701/10000| < 1/10000 := by
  refine ⟨fun A agents hA hlt => erlang_c_eq_some_of_lt hA hlt, ?_, ?_⟩
  · have h := erlang_c_eq_some_of_lt (by norm_num : (0:ℚ) ≤ 65/2)
      (by norm_num : (65/2 : ℚ) < ((35:ℤ):ℚ))
    simpa using h
  · norm_num [abs_lt, erlangCval, erlangCden, erlangCnum, erlangSum, Nat.factorial]

/-- C3 (amended): `erlang_c` performs no input validation and raises no
`InvalidInput` error.  It raises only where Python itself does: for
`agents ≤ 0` (division by zero / `factorial` of a negative) or a vanishing
final denominator.  For every `agents > 0` with nonzero final denominator it
returns the formula value without error — including `0 < agents ≤ A`, where
the result need not be a probability: `erlang_c 2 1 = 2`. -/
theorem C3_no_input_validation :
    (∀ (A : ℚ) (agents : ℤ), agents ≤ 0 → erlang_c A agents = none) ∧
    (∀ (A : ℚ) (agents : ℤ), 0 < agents →
      erlangCden A agents.toNat + erlangCnum A agents.toNat ≠ 0 →
      erlang_c A agents = some (erlangCval A agents.toNat)) ∧
    erlang_c 2 1 = some 2 := by
  refine ⟨fun A agents h => erlang_c_none h, fun A agents h0 hne => ?_,
    erlang_c_two_one⟩
  rw [erlang_c, if_neg (by omega), if_neg hne]

/-- Counterexample to C3 as stated: `erlang_c 2 1` has `agents = 1 ≤ 2 =
traffic_intensity`, yet it does not fail — it returns the value 2. -/
theorem C3_counterexample : erlang_c 2 1 = some 2 ∧ ((1:ℤ):ℚ) ≤ 2 :=
  ⟨erlang_c_two_one, by norm_num⟩

/-- C4: with traffic intensity 0 the staffing search does not return 1 — it
raises an exception.  The initial guess is `ceil(0) = 0` agents, and
`erlang_c` divides by zero there (`self.erlangs / agents`), so the very
first `service_level` call errors for any fuel. -/
theorem C4_zero_traffic_raises (tat aht tsl : ℚ) (fuel : ℕ) :
    raw_agents_required 0 tat aht tsl (fuel + 1) = SearchOut.error := by
  rw [raw_agents_required, Int.ceil_zero, rawAgentsGo,
    service_level, erlang_c_none (le_refl 0)]
  rfl

/-- C5: for fixed traffic intensity `A ≥ 0`, target answer time `≥ 0` and
handling time `> 0`, the service level computed by the code is non-decreasing
in the agent count on integer counts above `A`. -/
theorem C5_service_level_monotone (A tat aht : ℚ) (a1 a2 : ℤ) (s1 s2 : ℝ)
    (hA : 0 ≤ A) (htat : 0 ≤ tat) (haht : 0 < aht) (h1 : A < (a1:ℚ))
    (h12 : a1 ≤ a2) (hs1 : service_level A tat aht a1 = some s1)
    (hs2 : service_level A tat aht a2 = some s2) : s1 ≤ s2 := by
  rw [service_level_eq_some_of_lt tat aht hA h1] at hs1
  rw [service_level_eq_some_of_lt tat aht hA
    (lt_of_lt_of_le h1 (by exact_mod_cast h12))] at hs2
  rw [← ((Option.some.injEq _ _).mp hs1), ← ((Option.some.injEq _ _).mp hs2)]
  exact slVal_mono A tat aht hA htat haht h1 h12

/-- Witness for C5: with traffic intensity 1, target answer time 0 and
handling time 1, the service level at 2 agents is at most that at 3. -/
theorem C5_service_level_monotone_witness :
    slVal 1 0 1 (erlangCval 1 ((2:ℤ)).toNat) 2 ≤
      slVal 1 0 1 (erlangCval 1 ((3:ℤ)).toNat) 3 :=
  C5_service_level_monotone 1 0 1 2 3 _ _ (by norm_num) (le_refl 0)
    (by norm_num) (by norm_num) (by norm_num)
    (service_level_eq_some_of_lt 0 1 (by norm_num) (by norm_num))
    (service_level_eq_some_of_lt 0 1 (by norm_num) (by norm_num))

/-- C6 (amended): for traffic intensity `A > 0` and integer
`agents > A`, `erlang_c A agents` returns a value in `(0, 1]`; the claim's
boundary case `A = 0` instead yields the value 0, outside `(0, 1]`. -/
theorem C6_range (A : ℚ) (agents : ℤ) (hA : 0 < A) (hlt : A < (agents:ℚ)) :
    erlang_c A agents = some (erlangCval A agents.toNat) ∧
      0 < erlangCval A agents.toNat ∧ erlangCval A agents.toNat ≤ 1 := by
  have h0 : 0 < agents := by exact_mod_cast lt_trans hA hlt
  have hcast := toNat_cast_q h0.le
  have ht : A < ((agents.toNat : ℕ) : ℚ) := by rw [hcast]; exact hlt
  exact ⟨erlang_c_eq_some_of_lt hA.le hlt, erlangCval_pos hA ht,
    erlangCval_le_one hA.le ht⟩

/-- Witness for C6: at traffic intensity 1/2 and 1 agent the value is in
`(0, 1]`. -/
theorem C6_range_witness :
    erlang_c (1/2) 1 = some (erlangCval (1/2) ((1:ℤ)).toNat) ∧
      0 < erlangCval (1/2) ((1:ℤ)).toNat ∧ erlangCval (1/2) ((1:ℤ)).toNat ≤ 1 :=
  C6_range (1/2) 1 (by norm_num) (by norm_num)

/-- Counterexample to C6 as stated: `A = 0`, `agents = 1` is a valid input
(`A ≥ 0`, `agents > A`, `agents > 0`), yet `erlang_c 0 1 = 0`, which is not
in the half-open interval `(0, 1]`. -/
theorem C6_counterexample : erlang_c 0 1 = some 0 ∧ ¬ ((0:ℚ) < 0) := by
  constructor
  · norm_num [erlang_c, erlangCval, erlangCden, erlangCnum, erlangSum,
      Nat.factorial]
  · norm_num

/-- C7: whenever `erlang_c` yields a probability `p` at the given traffic
intensity and agent count, `service_level` returns
`1 - p * exp((A - agents) * (tat / aht))`. -/
theorem C7_service_level_formula (A tat aht : ℚ) (agents : ℤ) (p : ℚ)
    (hp : erlang_c A agents = some p) :
    service_level A tat aht agents =
      some (1 - (p:ℝ) *
        Real.exp (((A:ℝ) - ((agents:ℤ):ℝ)) * ((tat:ℝ) / (aht:ℝ)))) := by
  rw [service_level, hp, Option.map_some']
  rfl

/-- Witness for C7: the formula instantiated at `A = 2`, one agent, where
the Erlang-C call returns 2. -/
theorem C7_service_level_formula_witness :
    service_level 2 0 1 1 =
      some (1 - ((2:ℚ):ℝ) *
        Real.exp ((((2:ℚ):ℝ) - (((1:ℤ)):ℝ)) * (((0:ℚ):ℝ) / ((1:ℚ):ℝ)))) :=
  C7_service_level_formula 2 0 1 1 2 erlang_c_two_one

/-- C8 (amended): `average_speed_of_answer` equals
`(p_wait * aht) / (agents - traffic_intensity)` whenever
`agents ≠ traffic_intensity`, and raises a division-by-zero error (not an
`InvalidInput`) when `agents = traffic_intensity`.  That case CAN occur for
an agent count produced by the staffing search, because the search starts at
`ceil(A)`: see the counterexample. -/
theorem C8_asa_formula (p_wait aht A : ℚ) (raw_agents : ℤ) :
    ((raw_agents:ℚ) ≠ A → average_speed_of_answer p_wait aht A raw_agents =
      some ((p_wait * aht) / ((raw_agents:ℚ) - A))) ∧
    ((raw_agents:ℚ) = A → average_speed_of_answer p_wait aht A raw_agents =
      none) := by
  constructor
  · intro h
    rw [average_speed_of_answer, if_neg (by intro hc; exact h (by linarith))]
  · intro h
    rw [average_speed_of_answer, if_pos (by rw [h]; ring)]

/-- Counterexample to C8's safety assertion: at traffic intensity 2 with
target service level 0, the staffing search returns exactly 2 agents, and
`average_speed_of_answer` at that staffing result divides by zero (raises),
so `agents = traffic_intensity` does occur for a search-produced count. -/
theorem C8_asa_counterexample :
    raw_agents_required 2 0 1 0 1 = SearchOut.result 2 ∧
      average_speed_of_answer (erlangCval 2 2) 1 2 2 = none := by
  constructor
  · have h := loop_diag 2 (by norm_num) 0 1 0
    norm_num at h ⊢
    exact h
  · rw [average_speed_of_answer, if_pos (by norm_num)]

/-- C9 (amended): the shrinkage adjustment returns
`ceil(raw_agents / (1 - shrinkage))` for every `shrinkage ≠ 1` — in
particular 55 for 38 raw agents at shrinkage 0.3 — and fails only at
`shrinkage = 1`, with a division-by-zero error rather than `InvalidInput`;
for `shrinkage > 1` it silently returns the ceiling of a negative quantity
instead of failing. -/
theorem C9_shrinkage_adjustment (raw_agents : ℤ) (shrinkage : ℚ) :
    (shrinkage ≠ 1 → agents_required raw_agents shrinkage =
      some ⌈(raw_agents:ℚ) / (1 - shrinkage)⌉) ∧
    (shrinkage = 1 → agents_required raw_agents shrinkage = none) ∧
    agents_required 38 (3/10) = some 55 := by
  refine ⟨fun h => ?_, fun h => ?_, ?_⟩
  · rw [agents_required, if_neg (by intro hc; exact h (by linarith))]
  · rw [agents_required, if_pos (by rw [h]; ring)]
  · rw [agents_required, if_neg (by norm_num)]
    congr 1
    rw [Int.ceil_eq_iff]
    norm_num

/-- Counterexample to C9 as stated: shrinkage 2 is at least 1, yet
`agents_required` does not fail — it returns `ceil(38 / (1 - 2)) = -38`. -/
theorem C9_counterexample : agents_required 38 2 = some (-38) := by
  rw [agents_required, if_neg (by norm_num)]
  congr 1
  rw [Int.ceil_eq_iff]
  norm_num

/-- C10: for every whole-number traffic intensity `A = n > 0`,
`erlang_c A n` raises no error and returns exactly 1 (the `(1 - A/agents)`
factor is exactly 0), the staffing search's first trial point is
`ceil(A) = n`, and the service level there is exactly 0, for every target
answer time and handling time. -/
theorem C10_whole_traffic_diagonal (n : ℕ) (tat aht : ℚ) (hn : 0 < n) :
    erlang_c (n:ℚ) (n:ℤ) = some 1 ∧ ⌈(n:ℚ)⌉ = (n:ℤ) ∧
      service_level (n:ℚ) tat aht (n:ℤ) = some 0 := by
  have hA : (0:ℚ) < (n:ℚ) := by exact_mod_cast hn
  have hceil : ⌈((n:ℕ):ℚ)⌉ = (n:ℤ) := Int.ceil_natCast n
  have ht : ((n:ℤ)).toNat = n := by omega
  have hec : erlang_c (n:ℚ) (n:ℤ) = some (erlangCval (n:ℚ) ((n:ℤ)).toNat) :=
    erlang_c_eq_some hA (by exact_mod_cast hn) (by push_cast; exact le_refl _)
  rw [ht, erlangCval_diag hn] at hec
  refine ⟨hec, hceil, ?_⟩
  have hsl : service_level (n:ℚ) tat aht (n:ℤ) =
      some (slVal (n:ℚ) tat aht (erlangCval (n:ℚ) ((n:ℤ)).toNat) (n:ℤ)) :=
    service_level_eq_some tat aht hA (by rw [hceil])
  rw [hsl, slVal_diag n hn tat aht]

/-- Witness for C10: the whole-number diagonal at `n = 1` with target answer
time 0 and handling time 1. -/
theorem C10_whole_traffic_diagonal_witness :
    erlang_c ((1:ℕ):ℚ) ((1:ℕ):ℤ) = some 1 ∧ ⌈((1:ℕ):ℚ)⌉ = ((1:ℕ):ℤ) ∧
      service_level ((1:ℕ):ℚ) 0 1 ((1:ℕ):ℤ) = some 0 :=
  C10_whole_traffic_diagonal 1 0 1 (by norm_num)

end CallCenter
